import Mathlib

/-!
Shallow embedding of the Cornucopia clothoid curve primitive
(`src/Cornucopia/Clothoid.cpp`).

The C++ code works with `double`; we idealize machine floating point as an
arbitrary linearly ordered field `α` (instantiated with `ℚ` or `ℝ` in concrete
statements).  The external numeric routines the file consumes — libm `cos`,
`sin`, `sqrt` and the Fresnel-integral evaluator (`Fresnel.h`, outside this
core per the spec) — are collected in an `Env` record; theorems that need
analytic facts about them state those facts as hypotheses.  Division is the
field division of `α` (total, with `x / 0 = 0`), which stands in for IEEE
division; where a claim is about division by zero we make the zero divisor
explicit in the statement.
-/

namespace Cornu

/-- The external real-valued routines used by `Clothoid.cpp`: libm `cos`,
`sin`, `sqrt`, the two Fresnel integrals from `Fresnel.h` (the call
`fresnel(t, s, c)` stores `fresnelS t` in `s` and `fresnelC t` in `c`), and
the constant `PI` (with `HALFPI = pi / 2`). -/
structure Env (α : Type) where
  cos : α → α
  sin : α → α
  sqrt : α → α
  fresnelC : α → α
  fresnelS : α → α
  pi : α

variable {α : Type} [LinearOrderedField α]

/-- Componentwise sum of 2D vectors (Eigen `Vector2d` addition). -/
def vadd (u v : α × α) : α × α := (u.1 + v.1, u.2 + v.2)

/-- Componentwise difference of 2D vectors. -/
def vsub (u v : α × α) : α × α := (u.1 - v.1, u.2 - v.2)

/-- Scalar times 2D vector. -/
def smul2 (c : α) (v : α × α) : α × α := (c * v.1, c * v.2)

/-- 2D vector divided componentwise by a scalar. -/
def vdivs (v : α × α) (c : α) : α × α := (v.1 / c, v.2 / c)

/-- A 2×2 matrix with rows `(a b)` and `(c d)` (Eigen `Matrix2d`). -/
structure Mat2 (α : Type) where
  a : α
  b : α
  c : α
  d : α

/-- Matrix-vector product. -/
def Mat2.mulVec (m : Mat2 α) (v : α × α) : α × α :=
  (m.a * v.1 + m.b * v.2, m.c * v.1 + m.d * v.2)

/-- Entrywise difference of 2×2 matrices. -/
def Mat2.sub (m n : Mat2 α) : Mat2 α := ⟨m.a - n.a, m.b - n.b, m.c - n.c, m.d - n.d⟩

/-- Scalar multiple of a 2×2 matrix. -/
def Mat2.smulM (k : α) (m : Mat2 α) : Mat2 α := ⟨k * m.a, k * m.b, k * m.c, k * m.d⟩

/-- Outer product of a column 2-vector with a row 2-vector. -/
def outer (cv rv : α × α) : Mat2 α :=
  ⟨cv.1 * rv.1, cv.1 * rv.2, cv.2 * rv.1, cv.2 * rv.2⟩

/-- Add a vector to column 0 of a matrix (`result.col(0) += v`). -/
def Mat2.addCol0 (m : Mat2 α) (v : α × α) : Mat2 α := ⟨m.a + v.1, m.b, m.c + v.2, m.d⟩

/-- Add a vector to column 1 of a matrix (`result.col(1) += v`). -/
def Mat2.addCol1 (m : Mat2 α) (v : α × α) : Mat2 α := ⟨m.a, m.b + v.1, m.c, m.d + v.2⟩

/-- Negate column 0 of a matrix (`m.col(0) *= -1`). -/
def Mat2.negCol0 (m : Mat2 α) : Mat2 α := ⟨-m.a, m.b, -m.c, m.d⟩

/-- The six-entry parameter vector `_params` of a clothoid segment, with the
named entries `X`, `Y`, `ANGLE`, `LENGTH`, `CURVATURE`, `DCURVATURE`. -/
structure Params (α : Type) where
  x : α
  y : α
  angle : α
  length : α
  curvature : α
  dcurvature : α

/-- A `Clothoid` object: the parameter vector together with the derived
cached state set by `_paramsChanged` (`_arc`, `_flat`, `_t1`, `_tdiff`,
`_mat`, `_startShift`). -/
structure Clothoid (α : Type) where
  params : Params α
  arc : Bool
  flat : Bool
  t1 : α
  tdiff : α
  mat : Mat2 α
  startShift : α × α

/-- Modelled from the spec: `AngleUtils::toRange` — its source file is not in
this repository snapshot (only `Clothoid.cpp` is); the spec says the start
angle is "kept normalized to a canonical range".  We model the canonical
range as `[0, 2π)`, so `toRange` subtracts the right multiple of `2π`. -/
def toRange [FloorRing α] (piv θ : α) : α :=
  θ - 2 * piv * ((⌊θ / (2 * piv)⌋ : ℤ) : α)

/-- Membership of an angle in the canonical range `[0, 2π)` modelled above. -/
def inCanonicalRange (env : Env α) (θ : α) : Prop :=
  0 ≤ θ ∧ θ < 2 * env.pi

/-- The canonical-space start point `startcs` computed (as a local variable)
by `Clothoid::_paramsChanged`: `(0,0)` in the flat sub-regime, `(1,0)` in the
circular-arc sub-regime, and the Fresnel pair at `t1` in the clothoid
regime. -/
def canonicalStart (env : Env α) (p : Params α) : α × α :=
  if |p.dcurvature| < 1/10^12 then
    if |p.curvature| < 1/10^6 then ((0 : α), (0 : α)) else ((1 : α), (0 : α))
  else
    let scale := env.sqrt |1 / (env.pi * p.dcurvature)|
    (env.fresnelC (p.curvature * scale), env.fresnelS (p.curvature * scale))

/-- The local variable `scale` of the clothoid branch of `_paramsChanged`:
`sqrt |1/(π·dcurvature)|`. -/
def cloScale (env : Env α) (q : Params α) : α := env.sqrt |1 / (env.pi * q.dcurvature)|

/-- The local variable `t1` of the clothoid branch: `curvature * scale`. -/
def cloT1 (env : Env α) (q : Params α) : α := q.curvature * cloScale env q

/-- The local variable `tdiff` of the clothoid branch: `dcurvature * scale`. -/
def cloTdiff (env : Env α) (q : Params α) : α := q.dcurvature * cloScale env q

/-- The local variable `angleShift` of the clothoid branch when `tdiff > 0`. -/
def cloASpos (env : Env α) (q : Params α) : α :=
  q.angle - cloT1 env q * cloT1 env q * (env.pi / 2)

/-- The local variable `angleShift` of the clothoid branch when `tdiff ≤ 0`. -/
def cloASneg (env : Env α) (q : Params α) : α :=
  q.angle + cloT1 env q * cloT1 env q * (env.pi / 2)

/-- `Clothoid::_paramsChanged`: recompute the whole derived state from the
parameter vector.  `_arc = |dcurvature| < 1e-12`; within the arc regime
`_flat = |curvature| < 1e-6`; the three branches fill `_t1`, `_tdiff`,
`_mat` and the canonical start point exactly as in the source, and
`_startShift = startPos - _mat * startcs`. -/
def paramsChanged (env : Env α) (p : Params α) : Clothoid α :=
  if |p.dcurvature| < 1/10^12 then
    if |p.curvature| < 1/10^6 then
      -- flat
      let cosA := env.cos p.angle
      let sinA := env.sin p.angle
      let mat : Mat2 α := ⟨cosA, -sinA, sinA, cosA⟩
      let startcs : α × α := (0, 0)
      { params := p, arc := true, flat := true, t1 := 0, tdiff := 1,
        mat := mat, startShift := vsub (p.x, p.y) (mat.mulVec startcs) }
    else
      -- non-flat arc
      let ang := p.angle - env.pi / 2
      let cosAS := env.cos ang / p.curvature
      let sinAS := env.sin ang / p.curvature
      let mat : Mat2 α := ⟨cosAS, -sinAS, sinAS, cosAS⟩
      let startcs : α × α := (1, 0)
      { params := p, arc := true, flat := false, t1 := 0, tdiff := p.curvature,
        mat := mat, startShift := vsub (p.x, p.y) (mat.mulVec startcs) }
  else
    -- clothoid
    let scale := env.sqrt |1 / (env.pi * p.dcurvature)|
    let t1 := p.curvature * scale
    let tdiff := p.dcurvature * scale
    let mat : Mat2 α :=
      if 0 < tdiff then
        let angleShift := p.angle - t1 * t1 * (env.pi / 2)
        let cosAS := env.pi * scale * env.cos angleShift
        let sinAS := env.pi * scale * env.sin angleShift
        ⟨cosAS, -sinAS, sinAS, cosAS⟩
      else
        -- reflection
        let angleShift := p.angle + t1 * t1 * (env.pi / 2)
        let cosAS := env.pi * scale * env.cos angleShift
        let sinAS := env.pi * scale * env.sin angleShift
        ⟨-cosAS, -sinAS, -sinAS, cosAS⟩
    let startcs : α × α := (env.fresnelC t1, env.fresnelS t1)
    { params := p, arc := false, flat := false, t1 := t1, tdiff := tdiff,
      mat := mat, startShift := vsub (p.x, p.y) (mat.mulVec startcs) }

/-- The constructor `Clothoid::Clothoid(start, startAngle, length, curvature,
endCurvature)`: fills the parameter vector (normalizing the angle with
`AngleUtils::toRange` and deriving `DCURVATURE = (endCurvature - curvature) /
length`, with no guard on `length`) and calls `_paramsChanged`. -/
def mkClothoid [FloorRing α] (env : Env α) (sx sy startAngle length curvature endCurvature : α) :
    Clothoid α :=
  paramsChanged env
    { x := sx, y := sy,
      angle := toRange env.pi startAngle,
      length := length,
      curvature := curvature,
      dcurvature := (endCurvature - curvature) / length }

/-- `Clothoid::isValid`: false when `_params[LENGTH] < 0`, true otherwise. -/
def isValid (C : Clothoid α) : Bool :=
  if C.params.length < 0 then false else true

/-- `Clothoid::angle(s) = _params[ANGLE] + s * (_params[CURVATURE] +
0.5 * s * _params[DCURVATURE])`. -/
def angle (C : Clothoid α) (s : α) : α :=
  C.params.angle + s * (C.params.curvature + 1/2 * s * C.params.dcurvature)

/-- `Clothoid::curvature(s) = _params[CURVATURE] + s * _params[DCURVATURE]`. -/
def curvature (C : Clothoid α) (s : α) : α :=
  C.params.curvature + s * C.params.dcurvature

/-- The position branch of `Clothoid::eval`: `t = _t1 + s * _tdiff`; the
canonical point is `(t, 0)` if `_flat`, `(cos t, sin t)` if `_arc`, and the
Fresnel pair at `t` otherwise; then `pos = _startShift + _mat * cs`. -/
def pos (env : Env α) (C : Clothoid α) (s : α) : α × α :=
  let t := C.t1 + s * C.tdiff
  let cs : α × α :=
    if C.flat then (t, 0)
    else if C.arc then (env.cos t, env.sin t)
    else (env.fresnelC t, env.fresnelS t)
  vadd C.startShift (C.mat.mulVec cs)

/-- The first-derivative branch of `Clothoid::eval`: `(cos angle, sin angle)`
with `angle = _params[ANGLE] + s * (_params[CURVATURE] + 0.5 * s *
_params[DCURVATURE])`; no regime flag is consulted. -/
def der (env : Env α) (C : Clothoid α) (s : α) : α × α :=
  let a := C.params.angle + s * (C.params.curvature + 1/2 * s * C.params.dcurvature)
  (env.cos a, env.sin a)

/-- The second-derivative branch of `Clothoid::eval`:
`(curvature + s * dcurvature) * (-sin angle, cos angle)`; no regime flag is
consulted. -/
def der2 (env : Env α) (C : Clothoid α) (s : α) : α × α :=
  let a := C.params.angle + s * (C.params.curvature + 1/2 * s * C.params.dcurvature)
  smul2 (C.params.curvature + s * C.params.dcurvature) (-(env.sin a), env.cos a)

/-- `Clothoid::project`: a stub, `return 0;` regardless of the point and the
segment. -/
def project (C : Clothoid α) (point : α × α) : α := 0

/-- `Clothoid::trim(sFrom, sTo)`: overwrite `ANGLE` with `angle(sFrom)`
(computed from the original curvature — in the C++ the angle line comes
before the curvature line), `CURVATURE` with `curvature(sFrom)`, `LENGTH`
with `sTo - sFrom`, `X`/`Y` with `pos(sFrom)`, leave `DCURVATURE` unchanged,
then call `_paramsChanged`.  There is no validation of `sFrom`/`sTo`. -/
def trim (env : Env α) (C : Clothoid α) (sFrom sTo : α) : Clothoid α :=
  let newStart := pos env C sFrom
  paramsChanged env
    { C.params with
      angle := angle C sFrom,
      curvature := curvature C sFrom,
      length := sTo - sFrom,
      x := newStart.1,
      y := newStart.2 }

/-- `Clothoid::flip()`: overwrite `X`/`Y` with `endPos() = pos(length)`,
`ANGLE` with `PI + endAngle() = PI + angle(length)`, `CURVATURE` with
`-endCurvature() = -curvature(length)`; `LENGTH` and `DCURVATURE` are left
unchanged; then call `_paramsChanged`. -/
def flip (env : Env α) (C : Clothoid α) : Clothoid α :=
  let newStart := pos env C C.params.length
  paramsChanged env
    { C.params with
      angle := env.pi + angle C C.params.length,
      curvature := -(curvature C C.params.length),
      x := newStart.1,
      y := newStart.2 }

/-- The 6×2 output matrix of `Clothoid::derivativeAt`, one row per parameter
(`X`, `Y`, `ANGLE`, `LENGTH`, `CURVATURE`, `DCURVATURE`), each row being the
pair of its two columns. -/
structure ParamDer (α : Type) where
  dX : α × α
  dY : α × α
  dAngle : α × α
  dLength : α × α
  dCurvature : α × α
  dDCurvature : α × α

/-- `Clothoid::derivativeAt(s)`: starts from `ParamDer::Zero(6, 2)`, sets
`out(X,0) = 1`, `out(Y,1) = 1`, `out.row(ANGLE) = (-diff.y, diff.x)` with
`diff = pos(s) - startPos()`, and fills the `CURVATURE` and `DCURVATURE` rows
with the regime-specific closed forms; the `LENGTH` row is never written. -/
def derivativeAt (env : Env α) (C : Clothoid α) (s : α) : ParamDer α :=
  let diff := vsub (pos env C s) (C.params.x, C.params.y)
  let dX : α × α := (1, 0)
  let dY : α × α := (0, 1)
  let dAngle : α × α := (-diff.2, diff.1)
  let dLength : α × α := (0, 0)
  if C.flat then
    let nsinCos : α × α := (-(env.sin C.params.angle), env.cos C.params.angle)
    { dX := dX, dY := dY, dAngle := dAngle, dLength := dLength,
      dCurvature := smul2 (1/2 * s * s) nsinCos,
      dDCurvature := smul2 (1/2/3 * s * s * s) nsinCos }
  else if C.arc then
    let curv := C.params.curvature
    let curAngle := angle C s
    let cosCur := env.cos curAngle
    let sinCur := env.sin curAngle
    let cosStart := env.cos C.params.angle
    let sinStart := env.sin C.params.angle
    let curvs := curv * s
    let curvDer : α × α :=
      (curvs * cosCur + sinStart - sinCur, curvs * sinCur + cosCur - cosStart)
    let dcurvDer : α × α :=
      (cosStart + (curvs * curvs * (1/2) - 1) * cosCur - curvs * sinCur,
       sinStart + (curvs * curvs * (1/2) - 1) * sinCur + curvs * cosCur)
    { dX := dX, dY := dY, dAngle := dAngle, dLength := dLength,
      dCurvature := vdivs curvDer (curv * curv),
      dDCurvature := vdivs dcurvDer (curv * curv * curv) }
  else
    let t := C.t1 + s * C.tdiff
    let scale := env.sqrt |1 / (env.pi * C.params.dcurvature)|
    let dt1dx : α × α :=
      (scale, -C.params.curvature * scale / (2 * C.params.dcurvature))
    let dtdx := vadd dt1dx (0, scale * s * (1/2))
    let cs : α × α := (env.fresnelC t, env.fresnelS t)
    let startcs : α × α := (env.fresnelC C.t1, env.fresnelS C.t1)
    let basicAngle := env.pi / 2 * C.t1 * C.t1
    let dstartcs : α × α := (env.cos basicAngle, env.sin basicAngle)
    let dcs : α × α := (env.cos (env.pi / 2 * t * t), env.sin (env.pi / 2 * t * t))
    let result0 :=
      Mat2.sub (outer (Mat2.mulVec C.mat dcs) dtdx) (outer (Mat2.mulVec C.mat dstartcs) dt1dx)
    let angleShift :=
      if 0 < C.tdiff then C.params.angle - C.t1 * C.t1 * (env.pi / 2)
      else C.params.angle + C.t1 * C.t1 * (env.pi / 2)
    let cosAS := env.cos angleShift
    let sinAS := env.sin angleShift
    let dmatdc0 :=
      Mat2.smulM (env.pi * scale * C.params.curvature / C.params.dcurvature)
        ⟨sinAS, cosAS, -cosAS, sinAS⟩
    let curvSqr := C.params.curvature * C.params.curvature
    let m00 := -C.params.dcurvature * cosAS - curvSqr * sinAS
    let m01 := C.params.dcurvature * sinAS - curvSqr * cosAS
    let dmatdd0 :=
      Mat2.smulM (env.pi / 2 * scale / (C.params.dcurvature * C.params.dcurvature))
        ⟨m00, m01, -m01, m00⟩
    let dmatdc := if C.tdiff < 0 then Mat2.negCol0 dmatdc0 else dmatdc0
    let dmatdd := if C.tdiff < 0 then Mat2.negCol0 dmatdd0 else dmatdd0
    let csdiff := vsub cs startcs
    let result :=
      Mat2.addCol1 (Mat2.addCol0 result0 (Mat2.mulVec dmatdc csdiff))
        (Mat2.mulVec dmatdd csdiff)
    { dX := dX, dY := dY, dAngle := dAngle, dLength := dLength,
      dCurvature := (result.a, result.c),
      dDCurvature := (result.b, result.d) }

/-- A rational environment used to evaluate the embedding on concrete inputs
in closed statements; the transcendental routines are irrelevant to the
statements it is used for, except that `cos 0 = 1` and `sin 0 = 0` hold. -/
def qEnv : Env ℚ :=
  { cos := fun _ => 1, sin := fun _ => 0, sqrt := fun _ => 0,
    fresnelC := fun _ => 0, fresnelS := fun _ => 0, pi := 355/113 }

/-- The real environment: genuine `Real.cos`, `Real.sin`, `Real.sqrt` and
`Real.pi`, with the Fresnel pair supplied as parameters (the Fresnel
evaluator is external to this core). -/
noncomputable def realEnv (FC FS : ℝ → ℝ) : Env ℝ :=
  { cos := Real.cos, sin := Real.sin, sqrt := Real.sqrt,
    fresnelC := FC, fresnelS := FS, pi := Real.pi }

/-- A copy of a state with the regime flags overridden; used to state that an
operation does not consult the flags. -/
def setFlags (C : Clothoid α) (b bf : Bool) : Clothoid α := { C with arc := b, flat := bf }

/-- `_paramsChanged` stores the parameter vector unchanged. -/
theorem params_paramsChanged (env : Env α) (p : Params α) :
    (paramsChanged env p).params = p := by
  unfold paramsChanged
  split
  · split <;> rfl
  · rfl

/-- The derived state in the flat sub-regime, in cleaned-up form. -/
theorem paramsChanged_flat (env : Env α) (p : Params α)
    (hdk : |p.dcurvature| < 1/10^12) (hk : |p.curvature| < 1/10^6) :
    paramsChanged env p =
      { params := p, arc := true, flat := true, t1 := 0, tdiff := 1,
        mat := ⟨env.cos p.angle, -env.sin p.angle, env.sin p.angle, env.cos p.angle⟩,
        startShift := (p.x, p.y) } := by
  unfold paramsChanged
  rw [if_pos hdk, if_pos hk]
  simp [vsub, Mat2.mulVec]

/-- The derived state in the circular-arc sub-regime, in cleaned-up form. -/
theorem paramsChanged_arc (env : Env α) (p : Params α)
    (hdk : |p.dcurvature| < 1/10^12) (hk : ¬ |p.curvature| < 1/10^6) :
    paramsChanged env p =
      { params := p, arc := true, flat := false, t1 := 0, tdiff := p.curvature,
        mat := ⟨env.cos (p.angle - env.pi / 2) / p.curvature,
                -(env.sin (p.angle - env.pi / 2) / p.curvature),
                env.sin (p.angle - env.pi / 2) / p.curvature,
                env.cos (p.angle - env.pi / 2) / p.curvature⟩,
        startShift := (p.x - env.cos (p.angle - env.pi / 2) / p.curvature,
                       p.y - env.sin (p.angle - env.pi / 2) / p.curvature) } := by
  unfold paramsChanged
  rw [if_pos hdk, if_neg hk]
  simp [vsub, Mat2.mulVec]

/-- Position in terms of the cached state when the flat flag is set. -/
theorem pos_of_flat (env : Env α) (C : Clothoid α) (hf : C.flat = true) (s : α) :
    pos env C s = vadd C.startShift (C.mat.mulVec (C.t1 + s * C.tdiff, 0)) := by
  simp [pos, hf]

/-- Position in terms of the cached state in the non-flat arc regime. -/
theorem pos_of_arc (env : Env α) (C : Clothoid α) (hf : C.flat = false)
    (ha : C.arc = true) (s : α) :
    pos env C s =
      vadd C.startShift
        (C.mat.mulVec (env.cos (C.t1 + s * C.tdiff), env.sin (C.t1 + s * C.tdiff))) := by
  simp [pos, hf, ha]

/-- Position in terms of the cached state in the general clothoid regime. -/
theorem pos_of_clo (env : Env α) (C : Clothoid α) (hf : C.flat = false)
    (ha : C.arc = false) (s : α) :
    pos env C s =
      vadd C.startShift
        (C.mat.mulVec (env.fresnelC (C.t1 + s * C.tdiff), env.fresnelS (C.t1 + s * C.tdiff))) := by
  simp [pos, hf, ha]

/-- The derived state in the general clothoid regime: flags are cleared,
`t1 = curvature * scale`, `tdiff = dcurvature * scale` with
`scale = sqrt |1/(π dcurvature)|`, and the translation is the start position
minus the linear map applied to the Fresnel pair at `t1`. -/
theorem paramsChanged_clo (env : Env α) (p : Params α)
    (hdk : ¬ |p.dcurvature| < 1/10^12) :
    (paramsChanged env p).arc = false ∧
    (paramsChanged env p).flat = false ∧
    (paramsChanged env p).t1 = p.curvature * env.sqrt |1 / (env.pi * p.dcurvature)| ∧
    (paramsChanged env p).tdiff = p.dcurvature * env.sqrt |1 / (env.pi * p.dcurvature)| ∧
    (paramsChanged env p).startShift =
      vsub (p.x, p.y)
        ((paramsChanged env p).mat.mulVec
          (env.fresnelC ((paramsChanged env p).t1),
           env.fresnelS ((paramsChanged env p).t1))) := by
  unfold paramsChanged
  rw [if_neg hdk]
  exact ⟨rfl, rfl, rfl, rfl, rfl⟩

/-- The clothoid-regime linear map when `0 < tdiff`: a rotation by
`startAngle - t1²·π/2` scaled by `π·scale`. -/
theorem paramsChanged_clo_mat_of_pos (env : Env α) (p : Params α)
    (hdk : ¬ |p.dcurvature| < 1/10^12)
    (hsign : 0 < p.dcurvature * env.sqrt |1 / (env.pi * p.dcurvature)|) :
    (paramsChanged env p).mat =
      (let scale := env.sqrt |1 / (env.pi * p.dcurvature)|
       let t1 := p.curvature * scale
       let angleShift := p.angle - t1 * t1 * (env.pi / 2)
       (⟨env.pi * scale * env.cos angleShift, -(env.pi * scale * env.sin angleShift),
         env.pi * scale * env.sin angleShift, env.pi * scale * env.cos angleShift⟩ : Mat2 α)) := by
  unfold paramsChanged
  rw [if_neg hdk]
  show (if 0 < p.dcurvature * env.sqrt |1 / (env.pi * p.dcurvature)| then _ else _) = _
  rw [if_pos hsign]

/-- The clothoid-regime linear map in the reflected branch (`tdiff ≤ 0`):
the same rotation-scale with angle shift `startAngle + t1²·π/2` and with the
first column negated. -/
theorem paramsChanged_clo_mat_of_nonpos (env : Env α) (p : Params α)
    (hdk : ¬ |p.dcurvature| < 1/10^12)
    (hsign : ¬ 0 < p.dcurvature * env.sqrt |1 / (env.pi * p.dcurvature)|) :
    (paramsChanged env p).mat =
      (let scale := env.sqrt |1 / (env.pi * p.dcurvature)|
       let t1 := p.curvature * scale
       let angleShift := p.angle + t1 * t1 * (env.pi / 2)
       (⟨-(env.pi * scale * env.cos angleShift), -(env.pi * scale * env.sin angleShift),
         -(env.pi * scale * env.sin angleShift), env.pi * scale * env.cos angleShift⟩ : Mat2 α)) := by
  unfold paramsChanged
  rw [if_neg hdk]
  show (if 0 < p.dcurvature * env.sqrt |1 / (env.pi * p.dcurvature)| then _ else _) = _
  rw [if_neg hsign]

/-- C1: after `_paramsChanged`, the cached translation `_startShift` equals
the stored start position minus the linear map applied to the
canonical-space start point, and evaluating position at arc length 0
returns exactly the stored start position, in all three regimes.  The only
analytic facts needed are `cos 0 = 1` and `sin 0 = 0`. -/
theorem claim_C1_position_at_zero (env : Env α) (p : Params α)
    (hcos0 : env.cos 0 = 1) (hsin0 : env.sin 0 = 0) :
    (paramsChanged env p).startShift =
      vsub (p.x, p.y) ((paramsChanged env p).mat.mulVec (canonicalStart env p)) ∧
    pos env (paramsChanged env p) 0 = (p.x, p.y) := by
  by_cases hdk : |p.dcurvature| < 1/10^12
  · by_cases hk : |p.curvature| < 1/10^6
    · rw [paramsChanged_flat env p hdk hk]
      unfold canonicalStart
      rw [if_pos hdk, if_pos hk]
      refine ⟨by simp [vsub, Mat2.mulVec], ?_⟩
      rw [pos_of_flat env _ rfl 0]
      simp [vadd, Mat2.mulVec]
    · rw [paramsChanged_arc env p hdk hk]
      unfold canonicalStart
      rw [if_pos hdk, if_neg hk]
      refine ⟨by simp [vsub, Mat2.mulVec], ?_⟩
      rw [pos_of_arc env _ rfl rfl 0]
      simp only [zero_mul, add_zero, hcos0, hsin0, vadd, Mat2.mulVec, Prod.mk.injEq]
      constructor <;> ring
  · obtain ⟨ha, hf, ht1, htd, hss⟩ := paramsChanged_clo env p hdk
    refine ⟨by rw [hss, ht1]; unfold canonicalStart; rw [if_neg hdk], ?_⟩
    rw [pos_of_clo env _ hf ha 0]
    simp only [zero_mul, add_zero]
    rw [hss]
    simp only [vadd, vsub, Mat2.mulVec, Prod.mk.injEq]
    constructor <;> ring

/-- Witness for C1 at a concrete flat segment over ℚ. -/
theorem claim_C1_position_at_zero_witness :
    qEnv.cos 0 = 1 ∧ qEnv.sin 0 = 0 ∧
    pos qEnv (paramsChanged qEnv ⟨1, 2, 0, 3, 0, 0⟩) 0 = (1, 2) :=
  ⟨rfl, rfl, (claim_C1_position_at_zero qEnv ⟨1, 2, 0, 3, 0, 0⟩ rfl rfl).2⟩

/-- C3: the classifier sets the arc flag iff `|dcurvature| < 1e-12` and the
flat flag iff additionally `|curvature| < 1e-6`; in both arc sub-regimes the
canonical offset `t1` is 0; the flat sub-regime has canonical scale 1, a
pure rotation by the start angle, and canonical start point `(0,0)`; the
circular-arc sub-regime has canonical scale `curvature`, the rotation by
`startAngle - π/2` scaled by `1/curvature`, and canonical start point
`(1,0)`. -/
theorem claim_C3_regime_classifier (env : Env α) (p : Params α) :
    ((paramsChanged env p).arc = true ↔ |p.dcurvature| < 1/10^12) ∧
    ((paramsChanged env p).flat = true ↔
      (|p.dcurvature| < 1/10^12 ∧ |p.curvature| < 1/10^6)) ∧
    ((paramsChanged env p).arc = true → (paramsChanged env p).t1 = 0) ∧
    ((paramsChanged env p).flat = true →
      (paramsChanged env p).tdiff = 1 ∧
      (paramsChanged env p).mat =
        ⟨env.cos p.angle, -env.sin p.angle, env.sin p.angle, env.cos p.angle⟩ ∧
      canonicalStart env p = (0, 0)) ∧
    ((paramsChanged env p).arc = true → (paramsChanged env p).flat = false →
      (paramsChanged env p).tdiff = p.curvature ∧
      (paramsChanged env p).mat =
        ⟨env.cos (p.angle - env.pi / 2) / p.curvature,
         -(env.sin (p.angle - env.pi / 2) / p.curvature),
         env.sin (p.angle - env.pi / 2) / p.curvature,
         env.cos (p.angle - env.pi / 2) / p.curvature⟩ ∧
      canonicalStart env p = (1, 0)) := by
  by_cases hdk : |p.dcurvature| < 1/10^12
  · by_cases hk : |p.curvature| < 1/10^6
    · rw [paramsChanged_flat env p hdk hk]
      unfold canonicalStart
      rw [if_pos hdk, if_pos hk]
      exact ⟨iff_of_true rfl hdk, iff_of_true rfl ⟨hdk, hk⟩, fun _ => rfl,
        fun _ => ⟨rfl, rfl, rfl⟩, fun _ h => absurd h (by simp)⟩
    · rw [paramsChanged_arc env p hdk hk]
      unfold canonicalStart
      rw [if_pos hdk, if_neg hk]
      exact ⟨iff_of_true rfl hdk, iff_of_false (by simp) (fun h => hk h.2), fun _ => rfl,
        fun h => absurd h (by simp), fun _ _ => ⟨rfl, rfl, rfl⟩⟩
  · obtain ⟨ha, hf, ht1, htd, hss⟩ := paramsChanged_clo env p hdk
    rw [ha, hf]
    exact ⟨iff_of_false (by simp) hdk, iff_of_false (by simp) (fun h => hdk h.1),
      fun h => absurd h (by simp), fun h => absurd h (by simp),
      fun h => absurd h (by simp)⟩

/-- Witness for C3: a flat segment and a circular-arc segment over ℚ. -/
theorem claim_C3_regime_classifier_witness :
    (paramsChanged qEnv ⟨0, 0, 0, 1, 0, 0⟩).flat = true ∧
    (paramsChanged qEnv ⟨0, 0, 0, 1, 0, 0⟩).tdiff = 1 ∧
    canonicalStart qEnv ⟨0, 0, 0, 1, 0, 0⟩ = (0, 0) ∧
    (paramsChanged qEnv ⟨0, 0, 0, 1, 1, 0⟩).arc = true ∧
    (paramsChanged qEnv ⟨0, 0, 0, 1, 1, 0⟩).tdiff = 1 ∧
    canonicalStart qEnv ⟨0, 0, 0, 1, 1, 0⟩ = (1, 0) := by
  have h0 := claim_C3_regime_classifier qEnv ⟨0, 0, 0, 1, 0, 0⟩
  have h1 := claim_C3_regime_classifier qEnv ⟨0, 0, 0, 1, 1, 0⟩
  have hflat : (paramsChanged qEnv ⟨0, 0, 0, 1, 0, 0⟩).flat = true :=
    h0.2.1.mpr ⟨by norm_num, by norm_num⟩
  have harc : (paramsChanged qEnv ⟨0, 0, 0, 1, 1, 0⟩).arc = true :=
    h1.1.mpr (by norm_num)
  have hnotflat : (paramsChanged qEnv ⟨0, 0, 0, 1, 1, 0⟩).flat = false := by
    rcases Bool.eq_false_or_eq_true (paramsChanged qEnv ⟨0, 0, 0, 1, 1, 0⟩).flat with h | h
    · exact absurd (h1.2.1.mp h).2 (by norm_num)
    · exact h
  exact ⟨hflat, (h0.2.2.2.1 hflat).1, (h0.2.2.2.1 hflat).2.2, harc,
    (h1.2.2.2.2 harc hnotflat).1, (h1.2.2.2.2 harc hnotflat).2.2⟩

/-- The modelled `toRange` lands in the canonical range `[0, 2π)` whenever
`π > 0`. -/
theorem toRange_mem [FloorRing α] (piv θ : α) (hpi : 0 < piv) :
    0 ≤ toRange piv θ ∧ toRange piv θ < 2 * piv := by
  have h2 : (0 : α) < 2 * piv := by linarith
  have key : toRange piv θ = 2 * piv * Int.fract (θ / (2 * piv)) := by
    unfold toRange Int.fract
    field_simp
  rw [key]
  constructor
  · exact mul_nonneg h2.le (Int.fract_nonneg _)
  · calc 2 * piv * Int.fract (θ / (2 * piv)) < 2 * piv * 1 :=
          mul_lt_mul_of_pos_left (Int.fract_lt_one _) h2
      _ = 2 * piv := mul_one _

/-- Counterexample to C7 as stated: `trim` stores the recomputed start angle
without renormalizing it.  Trimming a segment with start angle 0 and
curvature 100 at `sFrom = 1` stores start angle 100, which is outside the
canonical range `[0, 2π)` (the environment here has `π = 355/113`, and
`100 ≥ 2·355/113`; the stored value 100 is independent of the environment). -/
theorem claim_C7_angle_normalized_counterexample :
    ¬ inCanonicalRange qEnv
        ((trim qEnv (mkClothoid qEnv 0 0 0 3 100 100) 1 2).params.angle) := by
  have hp : (mkClothoid qEnv 0 0 0 3 100 100).params =
      { x := 0, y := 0, angle := 0, length := 3, curvature := 100, dcurvature := 0 } := by
    unfold mkClothoid
    rw [params_paramsChanged]
    norm_num [toRange, qEnv]
  have ha : (trim qEnv (mkClothoid qEnv 0 0 0 3 100 100) 1 2).params.angle = 100 := by
    show (paramsChanged qEnv _).params.angle = _
    rw [params_paramsChanged]
    show angle _ 1 = 100
    unfold angle
    rw [hp]
    norm_num
  intro h
  rw [ha] at h
  rcases h with ⟨_, h2⟩
  norm_num [qEnv] at h2

/-- C7 amended: the start angle is normalized into the canonical range
`[0, 2π)` by the constructor — the only place `AngleUtils::toRange` is
applied — while `trim` and `flip` store the raw recomputed angle
(`headingAngle(sFrom)` resp. `π + headingAngle(length)`) without
renormalization, so after those operations the stored angle can leave the
canonical range. -/
theorem claim_C7_angle_normalized_amended [FloorRing α] (env : Env α)
    (hpi : 0 < env.pi) (sx sy a len k0 k1 : α) (C : Clothoid α) (sFrom sTo : α) :
    inCanonicalRange env ((mkClothoid env sx sy a len k0 k1).params.angle) ∧
    (trim env C sFrom sTo).params.angle = angle C sFrom ∧
    (flip env C).params.angle = env.pi + angle C C.params.length := by
  refine ⟨?_, ?_, ?_⟩
  · show inCanonicalRange env ((paramsChanged env _).params.angle)
    rw [params_paramsChanged]
    exact toRange_mem env.pi a hpi
  · show (paramsChanged env _).params.angle = _
    rw [params_paramsChanged]
  · show (paramsChanged env _).params.angle = _
    rw [params_paramsChanged]

/-- Witness for the amended C7 at a concrete construction over ℚ. -/
theorem claim_C7_angle_normalized_amended_witness :
    (0 : ℚ) < qEnv.pi ∧
    inCanonicalRange qEnv ((mkClothoid qEnv 0 0 7 1 0 0).params.angle) :=
  ⟨by norm_num [qEnv],
   (claim_C7_angle_normalized_amended qEnv (by norm_num [qEnv]) 0 0 7 1 0 0
      ⟨⟨0, 0, 0, 0, 0, 0⟩, true, true, 0, 1, ⟨1, 0, 0, 1⟩, (0, 0)⟩ 0 0).1⟩

/-- `flip` of a freshly rebuilt state, with the new parameter vector written
out explicitly. -/
theorem flip_eq (env : Env α) (p : Params α) :
    flip env (paramsChanged env p) =
      paramsChanged env
        { x := (pos env (paramsChanged env p) p.length).1,
          y := (pos env (paramsChanged env p) p.length).2,
          angle := env.pi + (p.angle + p.length * (p.curvature + 1/2 * p.length * p.dcurvature)),
          length := p.length,
          curvature := -(p.curvature + p.length * p.dcurvature),
          dcurvature := p.dcurvature } := by
  unfold flip angle curvature
  rw [params_paramsChanged]

/-- Closed form of position in the flat regime:
`start + s · (cos a, sin a)`. -/
theorem pos_flat_closed (env : Env α) (p : Params α)
    (hdk : |p.dcurvature| < 1/10^12) (hk : |p.curvature| < 1/10^6) (s : α) :
    pos env (paramsChanged env p) s =
      (p.x + s * env.cos p.angle, p.y + s * env.sin p.angle) := by
  rw [paramsChanged_flat env p hdk hk, pos_of_flat env _ rfl s]
  simp only [vadd, Mat2.mulVec, Prod.mk.injEq]
  constructor <;> ring

/-- Closed form of position in the circular-arc regime over the real
environment:
`start + ((sin(a + s·k) - sin a) / k, (cos a - cos(a + s·k)) / k)`. -/
theorem pos_arc_closed (FC FS : ℝ → ℝ) (p : Params ℝ)
    (hdk : |p.dcurvature| < 1/10^12) (hk : ¬ |p.curvature| < 1/10^6) (s : ℝ) :
    pos (realEnv FC FS) (paramsChanged (realEnv FC FS) p) s =
      (p.x + (Real.sin (p.angle + s * p.curvature) - Real.sin p.angle) / p.curvature,
       p.y + (Real.cos p.angle - Real.cos (p.angle + s * p.curvature)) / p.curvature) := by
  rw [paramsChanged_arc _ p hdk hk, pos_of_arc _ _ rfl rfl s]
  have hc : Real.cos (p.angle - Real.pi / 2) = Real.sin p.angle := by
    rw [Real.cos_sub, Real.cos_pi_div_two, Real.sin_pi_div_two]
    ring
  have hs : Real.sin (p.angle - Real.pi / 2) = -Real.cos p.angle := by
    rw [Real.sin_sub, Real.cos_pi_div_two, Real.sin_pi_div_two]
    ring
  simp only [realEnv, vadd, Mat2.mulVec, hc, hs, zero_add, Real.sin_add, Real.cos_add,
    Prod.mk.injEq]
  constructor <;> ring

/-- Position in the clothoid regime as the start position plus the linear
map applied to the Fresnel increment from `t1` to `t1 + s·tdiff`. -/
theorem pos_clo_shift (env : Env α) (p : Params α)
    (hdk : ¬ |p.dcurvature| < 1/10^12) (s : α) :
    pos env (paramsChanged env p) s =
      vadd (p.x, p.y)
        ((paramsChanged env p).mat.mulVec
          (vsub
            (env.fresnelC ((paramsChanged env p).t1 + s * (paramsChanged env p).tdiff),
             env.fresnelS ((paramsChanged env p).t1 + s * (paramsChanged env p).tdiff))
            (env.fresnelC ((paramsChanged env p).t1),
             env.fresnelS ((paramsChanged env p).t1)))) := by
  obtain ⟨ha, hf, ht1, htd, hss⟩ := paramsChanged_clo env p hdk
  rw [pos_of_clo env _ hf ha s, hss]
  simp only [vadd, vsub, Mat2.mulVec, Prod.mk.injEq]
  constructor <;> ring

/-- `cos (π + x) = -cos x`, in the operand order produced by `flip`. -/
theorem cosPiAdd (x : ℝ) : Real.cos (Real.pi + x) = -Real.cos x := by
  rw [add_comm, Real.cos_add_pi]

/-- `sin (π + x) = -sin x`, in the operand order produced by `flip`. -/
theorem sinPiAdd (x : ℝ) : Real.sin (Real.pi + x) = -Real.sin x := by
  rw [add_comm, Real.sin_add_pi]

/-- `cos (π + (π + x)) = cos x`, the angle shape produced by a double flip. -/
theorem cosTwoPiAdd (x : ℝ) : Real.cos (Real.pi + (Real.pi + x)) = Real.cos x := by
  have h : Real.pi + (Real.pi + x) = x + 2 * Real.pi := by ring
  rw [h, Real.cos_add_two_pi]

/-- `sin (π + (π + x)) = sin x`, the angle shape produced by a double flip. -/
theorem sinTwoPiAdd (x : ℝ) : Real.sin (Real.pi + (Real.pi + x)) = Real.sin x := by
  have h : Real.pi + (Real.pi + x) = x + 2 * Real.pi := by ring
  rw [h, Real.sin_add_two_pi]

/-- Double flip reproduces the position function exactly in the flat
sub-regime when the below-threshold parameters are exactly zero. -/
theorem flip_flip_flat (FC FS : ℝ → ℝ) (p : Params ℝ)
    (hdk0 : p.dcurvature = 0) (hk0 : p.curvature = 0) (s : ℝ) :
    pos (realEnv FC FS) (flip (realEnv FC FS) (flip (realEnv FC FS)
        (paramsChanged (realEnv FC FS) p))) s =
      pos (realEnv FC FS) (paramsChanged (realEnv FC FS) p) s := by
  have hdk : |p.dcurvature| < (1 : ℝ)/10^12 := by rw [hdk0]; norm_num
  have hk : |p.curvature| < (1 : ℝ)/10^6 := by rw [hk0]; norm_num
  have hposL := pos_flat_closed (realEnv FC FS) p hdk hk p.length
  have h1 : flip (realEnv FC FS) (paramsChanged (realEnv FC FS) p) =
      paramsChanged (realEnv FC FS)
        ⟨p.x + p.length * ((realEnv FC FS).cos p.angle),
         p.y + p.length * ((realEnv FC FS).sin p.angle),
         Real.pi + p.angle, p.length, 0, 0⟩ := by
    rw [flip_eq]
    refine congrArg (paramsChanged (realEnv FC FS)) ?_
    rw [hposL]
    simp only [realEnv, hdk0, hk0, Params.mk.injEq]
    norm_num
  set p1 : Params ℝ :=
    ⟨p.x + p.length * ((realEnv FC FS).cos p.angle),
     p.y + p.length * ((realEnv FC FS).sin p.angle),
     Real.pi + p.angle, p.length, 0, 0⟩ with hp1
  have hdk1 : |p1.dcurvature| < (1 : ℝ)/10^12 := by rw [hp1]; norm_num
  have hk1 : |p1.curvature| < (1 : ℝ)/10^6 := by rw [hp1]; norm_num
  have hret : pos (realEnv FC FS) (paramsChanged (realEnv FC FS) p1) p1.length = (p.x, p.y) := by
    rw [pos_flat_closed (realEnv FC FS) p1 hdk1 hk1 p1.length, hp1]
    simp only [realEnv, cosPiAdd, sinPiAdd, Prod.mk.injEq]
    constructor <;> ring
  have h2 : flip (realEnv FC FS) (paramsChanged (realEnv FC FS) p1) =
      paramsChanged (realEnv FC FS)
        ⟨p.x, p.y, Real.pi + (Real.pi + p.angle), p.length, 0, 0⟩ := by
    rw [flip_eq]
    refine congrArg (paramsChanged (realEnv FC FS)) ?_
    rw [hret]
    simp only [hp1, realEnv, Params.mk.injEq]
    norm_num
  rw [h1, h2, pos_flat_closed _ _ (by norm_num) (by norm_num) s,
    pos_flat_closed _ p hdk hk s]
  simp only [realEnv, cosTwoPiAdd, sinTwoPiAdd]

/-- Double flip reproduces the position function exactly in the circular-arc
sub-regime when the curvature slope is exactly zero. -/
theorem flip_flip_arc (FC FS : ℝ → ℝ) (p : Params ℝ)
    (hdk0 : p.dcurvature = 0) (hk : ¬ |p.curvature| < 1/10^6) (s : ℝ) :
    pos (realEnv FC FS) (flip (realEnv FC FS) (flip (realEnv FC FS)
        (paramsChanged (realEnv FC FS) p))) s =
      pos (realEnv FC FS) (paramsChanged (realEnv FC FS) p) s := by
  have hdk : |p.dcurvature| < (1 : ℝ)/10^12 := by rw [hdk0]; norm_num
  have hposL := pos_arc_closed FC FS p hdk hk p.length
  have h1 : flip (realEnv FC FS) (paramsChanged (realEnv FC FS) p) =
      paramsChanged (realEnv FC FS)
        ⟨p.x + (Real.sin (p.angle + p.length * p.curvature) - Real.sin p.angle) / p.curvature,
         p.y + (Real.cos p.angle - Real.cos (p.angle + p.length * p.curvature)) / p.curvature,
         Real.pi + (p.angle + p.length * p.curvature), p.length, -p.curvature, 0⟩ := by
    rw [flip_eq]
    refine congrArg (paramsChanged (realEnv FC FS)) ?_
    rw [hposL]
    simp only [realEnv, hdk0, Params.mk.injEq, and_true, true_and]
    exact ⟨by ring, by ring⟩
  set p1 : Params ℝ :=
    ⟨p.x + (Real.sin (p.angle + p.length * p.curvature) - Real.sin p.angle) / p.curvature,
     p.y + (Real.cos p.angle - Real.cos (p.angle + p.length * p.curvature)) / p.curvature,
     Real.pi + (p.angle + p.length * p.curvature), p.length, -p.curvature, 0⟩ with hp1
  have hdk1 : |p1.dcurvature| < (1 : ℝ)/10^12 := by rw [hp1]; norm_num
  have hk1 : ¬ |p1.curvature| < (1 : ℝ)/10^6 := by
    rw [hp1]
    show ¬ |(-p.curvature)| < (1 : ℝ)/10^6
    rw [abs_neg]
    exact hk
  have hret : pos (realEnv FC FS) (paramsChanged (realEnv FC FS) p1) p1.length = (p.x, p.y) := by
    rw [pos_arc_closed FC FS p1 hdk1 hk1 p1.length, hp1]
    show (_ + (Real.sin (Real.pi + (p.angle + p.length * p.curvature) +
            p.length * -p.curvature) - _) / _, _) = _
    have e1 : Real.pi + (p.angle + p.length * p.curvature) + p.length * -p.curvature
        = Real.pi + p.angle := by ring
    rw [e1]
    simp only [sinPiAdd, cosPiAdd, Prod.mk.injEq]
    constructor <;> ring
  have h2 : flip (realEnv FC FS) (paramsChanged (realEnv FC FS) p1) =
      paramsChanged (realEnv FC FS)
        ⟨p.x, p.y, Real.pi + (Real.pi + p.angle), p.length, p.curvature, 0⟩ := by
    rw [flip_eq]
    refine congrArg (paramsChanged (realEnv FC FS)) ?_
    rw [hret]
    simp only [hp1, realEnv, Params.mk.injEq, and_true, true_and]
    exact ⟨by ring, by ring⟩
  rw [h1, h2, pos_arc_closed FC FS
      ⟨p.x, p.y, Real.pi + (Real.pi + p.angle), p.length, p.curvature, 0⟩ (by norm_num) hk s,
    pos_arc_closed FC FS p hdk hk s]
  show (_ + (Real.sin (Real.pi + (Real.pi + p.angle) + s * p.curvature) -
      Real.sin (Real.pi + (Real.pi + p.angle))) / _, _) = _
  have e2 : Real.pi + (Real.pi + p.angle) + s * p.curvature
      = (p.angle + s * p.curvature) + 2 * Real.pi := by ring
  rw [e2, Real.sin_add_two_pi, Real.cos_add_two_pi, sinTwoPiAdd, cosTwoPiAdd]

/-- Closed form of position in the clothoid regime when the curvature slope
is positive (`tdiff > 0` branch). -/
theorem pos_clo_closed_of_pos (FC FS : ℝ → ℝ) (q : Params ℝ)
    (hdk : ¬ |q.dcurvature| < 1/10^12) (hq : 0 < q.dcurvature) (s : ℝ) :
    pos (realEnv FC FS) (paramsChanged (realEnv FC FS) q) s =
      (q.x + Real.pi * cloScale (realEnv FC FS) q *
          (Real.cos (cloASpos (realEnv FC FS) q) *
              (FC (cloT1 (realEnv FC FS) q + s * cloTdiff (realEnv FC FS) q) -
               FC (cloT1 (realEnv FC FS) q)) -
            Real.sin (cloASpos (realEnv FC FS) q) *
              (FS (cloT1 (realEnv FC FS) q + s * cloTdiff (realEnv FC FS) q) -
               FS (cloT1 (realEnv FC FS) q))),
       q.y + Real.pi * cloScale (realEnv FC FS) q *
          (Real.sin (cloASpos (realEnv FC FS) q) *
              (FC (cloT1 (realEnv FC FS) q + s * cloTdiff (realEnv FC FS) q) -
               FC (cloT1 (realEnv FC FS) q)) +
            Real.cos (cloASpos (realEnv FC FS) q) *
              (FS (cloT1 (realEnv FC FS) q + s * cloTdiff (realEnv FC FS) q) -
               FS (cloT1 (realEnv FC FS) q)))) := by
  have hscpos : 0 < cloScale (realEnv FC FS) q := by
    unfold cloScale
    show 0 < Real.sqrt |1 / (Real.pi * q.dcurvature)|
    exact Real.sqrt_pos.mpr (abs_pos.mpr (one_div_ne_zero
      (mul_ne_zero Real.pi_ne_zero hq.ne')))
  obtain ⟨ha, hf, ht1, htdeq, hss⟩ := paramsChanged_clo (realEnv FC FS) q hdk
  rw [pos_clo_shift (realEnv FC FS) q hdk s, ht1, htdeq,
    paramsChanged_clo_mat_of_pos (realEnv FC FS) q hdk (mul_pos hq hscpos)]
  simp only [realEnv, vadd, vsub, Mat2.mulVec, Prod.mk.injEq]
  unfold cloASpos cloTdiff cloT1 cloScale
  simp only [realEnv]
  constructor <;> ring

/-- Closed form of position in the clothoid regime when the curvature slope
is negative (the reflected `tdiff ≤ 0` branch). -/
theorem pos_clo_closed_of_neg (FC FS : ℝ → ℝ) (q : Params ℝ)
    (hdk : ¬ |q.dcurvature| < 1/10^12) (hq : q.dcurvature < 0) (s : ℝ) :
    pos (realEnv FC FS) (paramsChanged (realEnv FC FS) q) s =
      (q.x - Real.pi * cloScale (realEnv FC FS) q *
          (Real.cos (cloASneg (realEnv FC FS) q) *
              (FC (cloT1 (realEnv FC FS) q + s * cloTdiff (realEnv FC FS) q) -
               FC (cloT1 (realEnv FC FS) q)) +
            Real.sin (cloASneg (realEnv FC FS) q) *
              (FS (cloT1 (realEnv FC FS) q + s * cloTdiff (realEnv FC FS) q) -
               FS (cloT1 (realEnv FC FS) q))),
       q.y + Real.pi * cloScale (realEnv FC FS) q *
          (Real.cos (cloASneg (realEnv FC FS) q) *
              (FS (cloT1 (realEnv FC FS) q + s * cloTdiff (realEnv FC FS) q) -
               FS (cloT1 (realEnv FC FS) q)) -
            Real.sin (cloASneg (realEnv FC FS) q) *
              (FC (cloT1 (realEnv FC FS) q + s * cloTdiff (realEnv FC FS) q) -
               FC (cloT1 (realEnv FC FS) q)))) := by
  have hscpos : 0 < cloScale (realEnv FC FS) q := by
    unfold cloScale
    show 0 < Real.sqrt |1 / (Real.pi * q.dcurvature)|
    exact Real.sqrt_pos.mpr (abs_pos.mpr (one_div_ne_zero
      (mul_ne_zero Real.pi_ne_zero hq.ne)))
  have hsign : ¬ 0 < q.dcurvature *
      ((realEnv FC FS).sqrt |1 / ((realEnv FC FS).pi * q.dcurvature)|) :=
    not_lt.mpr (mul_nonpos_of_nonpos_of_nonneg hq.le hscpos.le)
  obtain ⟨ha, hf, ht1, htdeq, hss⟩ := paramsChanged_clo (realEnv FC FS) q hdk
  rw [pos_clo_shift (realEnv FC FS) q hdk s, ht1, htdeq,
    paramsChanged_clo_mat_of_nonpos (realEnv FC FS) q hdk hsign]
  simp only [realEnv, vadd, vsub, Mat2.mulVec, Prod.mk.injEq]
  unfold cloASneg cloTdiff cloT1 cloScale
  simp only [realEnv]
  constructor <;> ring

/-- Double flip reproduces the position function exactly in the general
clothoid regime with positive curvature slope, given the odd symmetry of the
Fresnel integrals. -/
theorem flip_flip_clo_of_pos (FC FS : ℝ → ℝ)
    (hFC : ∀ t, FC (-t) = -FC t) (hFS : ∀ t, FS (-t) = -FS t)
    (p : Params ℝ) (hdk : ¬ |p.dcurvature| < 1/10^12) (hpos : 0 < p.dcurvature) (s : ℝ) :
    pos (realEnv FC FS) (flip (realEnv FC FS) (flip (realEnv FC FS)
        (paramsChanged (realEnv FC FS) p))) s =
      pos (realEnv FC FS) (paramsChanged (realEnv FC FS) p) s := by
  have hposL := pos_clo_closed_of_pos FC FS p hdk hpos p.length
  have h1 : flip (realEnv FC FS) (paramsChanged (realEnv FC FS) p) =
      paramsChanged (realEnv FC FS)
        ⟨(pos (realEnv FC FS) (paramsChanged (realEnv FC FS) p) p.length).1,
         (pos (realEnv FC FS) (paramsChanged (realEnv FC FS) p) p.length).2,
         Real.pi + (p.angle + p.length * (p.curvature + 1/2 * p.length * p.dcurvature)),
         p.length, -(p.curvature + p.length * p.dcurvature), p.dcurvature⟩ :=
    flip_eq (realEnv FC FS) p
  have escale : cloScale (realEnv FC FS)
      (⟨(pos (realEnv FC FS) (paramsChanged (realEnv FC FS) p) p.length).1,
         (pos (realEnv FC FS) (paramsChanged (realEnv FC FS) p) p.length).2,
         Real.pi + (p.angle + p.length * (p.curvature + 1/2 * p.length * p.dcurvature)),
         p.length, -(p.curvature + p.length * p.dcurvature), p.dcurvature⟩ : Params ℝ) = cloScale (realEnv FC FS) p := rfl
  have etdiff : cloTdiff (realEnv FC FS)
      (⟨(pos (realEnv FC FS) (paramsChanged (realEnv FC FS) p) p.length).1,
         (pos (realEnv FC FS) (paramsChanged (realEnv FC FS) p) p.length).2,
         Real.pi + (p.angle + p.length * (p.curvature + 1/2 * p.length * p.dcurvature)),
         p.length, -(p.curvature + p.length * p.dcurvature), p.dcurvature⟩ : Params ℝ) = cloTdiff (realEnv FC FS) p := rfl
  have et1 : cloT1 (realEnv FC FS)
      (⟨(pos (realEnv FC FS) (paramsChanged (realEnv FC FS) p) p.length).1,
         (pos (realEnv FC FS) (paramsChanged (realEnv FC FS) p) p.length).2,
         Real.pi + (p.angle + p.length * (p.curvature + 1/2 * p.length * p.dcurvature)),
         p.length, -(p.curvature + p.length * p.dcurvature), p.dcurvature⟩ : Params ℝ)
      = -(cloT1 (realEnv FC FS) p + p.length * cloTdiff (realEnv FC FS) p) := by
    unfold cloT1 cloTdiff
    rw [escale]
    dsimp only
    ring
  have hs2 : cloScale (realEnv FC FS) p * cloScale (realEnv FC FS) p *
      (Real.pi * p.dcurvature) = 1 := by
    unfold cloScale
    show Real.sqrt |1 / (Real.pi * p.dcurvature)| * Real.sqrt |1 / (Real.pi * p.dcurvature)| *
        (Real.pi * p.dcurvature) = 1
    rw [Real.mul_self_sqrt (abs_nonneg _), abs_of_pos (by positivity)]
    field_simp
  have eAS : cloASpos (realEnv FC FS)
      (⟨(pos (realEnv FC FS) (paramsChanged (realEnv FC FS) p) p.length).1,
         (pos (realEnv FC FS) (paramsChanged (realEnv FC FS) p) p.length).2,
         Real.pi + (p.angle + p.length * (p.curvature + 1/2 * p.length * p.dcurvature)),
         p.length, -(p.curvature + p.length * p.dcurvature), p.dcurvature⟩ : Params ℝ) = cloASpos (realEnv FC FS) p + Real.pi := by
    unfold cloASpos cloT1
    rw [escale]
    dsimp only
    rw [show (realEnv FC FS).pi = Real.pi from rfl]
    linear_combination (-(p.length * (p.curvature + 1/2 * p.length * p.dcurvature))) * hs2
  have hq := pos_clo_closed_of_pos FC FS
      (⟨(pos (realEnv FC FS) (paramsChanged (realEnv FC FS) p) p.length).1,
         (pos (realEnv FC FS) (paramsChanged (realEnv FC FS) p) p.length).2,
         Real.pi + (p.angle + p.length * (p.curvature + 1/2 * p.length * p.dcurvature)),
         p.length, -(p.curvature + p.length * p.dcurvature), p.dcurvature⟩ : Params ℝ) hdk hpos p.length
  rw [escale, etdiff, et1, eAS, Real.cos_add_pi, Real.sin_add_pi,
    show -(cloT1 (realEnv FC FS) p + p.length * cloTdiff (realEnv FC FS) p) +
        p.length * cloTdiff (realEnv FC FS) p = -cloT1 (realEnv FC FS) p from by ring,
    hFC, hFS, hFC, hFS] at hq
  have hret : pos (realEnv FC FS) (paramsChanged (realEnv FC FS)
      (⟨(pos (realEnv FC FS) (paramsChanged (realEnv FC FS) p) p.length).1,
         (pos (realEnv FC FS) (paramsChanged (realEnv FC FS) p) p.length).2,
         Real.pi + (p.angle + p.length * (p.curvature + 1/2 * p.length * p.dcurvature)),
         p.length, -(p.curvature + p.length * p.dcurvature), p.dcurvature⟩ : Params ℝ)) p.length = (p.x, p.y) := by
    rw [hq]
    dsimp only
    rw [hposL]
    dsimp only
    simp only [Prod.mk.injEq]
    constructor <;> ring
  have h2 : flip (realEnv FC FS) (paramsChanged (realEnv FC FS)
      (⟨(pos (realEnv FC FS) (paramsChanged (realEnv FC FS) p) p.length).1,
         (pos (realEnv FC FS) (paramsChanged (realEnv FC FS) p) p.length).2,
         Real.pi + (p.angle + p.length * (p.curvature + 1/2 * p.length * p.dcurvature)),
         p.length, -(p.curvature + p.length * p.dcurvature), p.dcurvature⟩ : Params ℝ)) =
      paramsChanged (realEnv FC FS)
        ⟨p.x, p.y, p.angle + 2 * Real.pi, p.length, p.curvature, p.dcurvature⟩ := by
    rw [flip_eq]
    refine congrArg (paramsChanged (realEnv FC FS)) ?_
    dsimp only
    rw [hret]
    simp only [realEnv, Params.mk.injEq, and_true, true_and]
    exact ⟨by ring, by ring⟩
  have eAS2 : cloASpos (realEnv FC FS)
      (⟨p.x, p.y, p.angle + 2 * Real.pi, p.length, p.curvature, p.dcurvature⟩ : Params ℝ)
      = cloASpos (realEnv FC FS) p + 2 * Real.pi := by
    unfold cloASpos cloT1 cloScale
    dsimp only
    rw [show (realEnv FC FS).pi = Real.pi from rfl]
    ring
  have esc2 : cloScale (realEnv FC FS)
      (⟨p.x, p.y, p.angle + 2 * Real.pi, p.length, p.curvature, p.dcurvature⟩ : Params ℝ)
      = cloScale (realEnv FC FS) p := rfl
  have et2 : cloT1 (realEnv FC FS)
      (⟨p.x, p.y, p.angle + 2 * Real.pi, p.length, p.curvature, p.dcurvature⟩ : Params ℝ)
      = cloT1 (realEnv FC FS) p := rfl
  have etd2 : cloTdiff (realEnv FC FS)
      (⟨p.x, p.y, p.angle + 2 * Real.pi, p.length, p.curvature, p.dcurvature⟩ : Params ℝ)
      = cloTdiff (realEnv FC FS) p := rfl
  rw [h1, h2, pos_clo_closed_of_pos FC FS
      (⟨p.x, p.y, p.angle + 2 * Real.pi, p.length, p.curvature, p.dcurvature⟩ : Params ℝ) hdk hpos s,
    pos_clo_closed_of_pos FC FS p hdk hpos s,
    eAS2, esc2, et2, etd2, Real.cos_add_two_pi, Real.sin_add_two_pi]

/-- Double flip reproduces the position function exactly in the general
clothoid regime with negative curvature slope (the reflected branch), given
the odd symmetry of the Fresnel integrals. -/
theorem flip_flip_clo_of_neg (FC FS : ℝ → ℝ)
    (hFC : ∀ t, FC (-t) = -FC t) (hFS : ∀ t, FS (-t) = -FS t)
    (p : Params ℝ) (hdk : ¬ |p.dcurvature| < 1/10^12) (hneg : p.dcurvature < 0) (s : ℝ) :
    pos (realEnv FC FS) (flip (realEnv FC FS) (flip (realEnv FC FS)
        (paramsChanged (realEnv FC FS) p))) s =
      pos (realEnv FC FS) (paramsChanged (realEnv FC FS) p) s := by
  have hposL := pos_clo_closed_of_neg FC FS p hdk hneg p.length
  have h1 : flip (realEnv FC FS) (paramsChanged (realEnv FC FS) p) =
      paramsChanged (realEnv FC FS)
        ⟨(pos (realEnv FC FS) (paramsChanged (realEnv FC FS) p) p.length).1,
         (pos (realEnv FC FS) (paramsChanged (realEnv FC FS) p) p.length).2,
         Real.pi + (p.angle + p.length * (p.curvature + 1/2 * p.length * p.dcurvature)),
         p.length, -(p.curvature + p.length * p.dcurvature), p.dcurvature⟩ :=
    flip_eq (realEnv FC FS) p
  have escale : cloScale (realEnv FC FS)
      (⟨(pos (realEnv FC FS) (paramsChanged (realEnv FC FS) p) p.length).1,
         (pos (realEnv FC FS) (paramsChanged (realEnv FC FS) p) p.length).2,
         Real.pi + (p.angle + p.length * (p.curvature + 1/2 * p.length * p.dcurvature)),
         p.length, -(p.curvature + p.length * p.dcurvature), p.dcurvature⟩ : Params ℝ) = cloScale (realEnv FC FS) p := rfl
  have etdiff : cloTdiff (realEnv FC FS)
      (⟨(pos (realEnv FC FS) (paramsChanged (realEnv FC FS) p) p.length).1,
         (pos (realEnv FC FS) (paramsChanged (realEnv FC FS) p) p.length).2,
         Real.pi + (p.angle + p.length * (p.curvature + 1/2 * p.length * p.dcurvature)),
         p.length, -(p.curvature + p.length * p.dcurvature), p.dcurvature⟩ : Params ℝ) = cloTdiff (realEnv FC FS) p := rfl
  have et1 : cloT1 (realEnv FC FS)
      (⟨(pos (realEnv FC FS) (paramsChanged (realEnv FC FS) p) p.length).1,
         (pos (realEnv FC FS) (paramsChanged (realEnv FC FS) p) p.length).2,
         Real.pi + (p.angle + p.length * (p.curvature + 1/2 * p.length * p.dcurvature)),
         p.length, -(p.curvature + p.length * p.dcurvature), p.dcurvature⟩ : Params ℝ)
      = -(cloT1 (realEnv FC FS) p + p.length * cloTdiff (realEnv FC FS) p) := by
    unfold cloT1 cloTdiff
    rw [escale]
    dsimp only
    ring
  have hs2 : cloScale (realEnv FC FS) p * cloScale (realEnv FC FS) p *
      (Real.pi * p.dcurvature) = -1 := by
    unfold cloScale
    show Real.sqrt |1 / (Real.pi * p.dcurvature)| * Real.sqrt |1 / (Real.pi * p.dcurvature)| *
        (Real.pi * p.dcurvature) = -1
    rw [Real.mul_self_sqrt (abs_nonneg _),
      abs_of_neg (div_neg_of_pos_of_neg one_pos
        (mul_neg_of_pos_of_neg Real.pi_pos hneg))]
    field_simp
    rw [neg_div, div_self (mul_ne_zero Real.pi_ne_zero hneg.ne)]
  have eAS : cloASneg (realEnv FC FS)
      (⟨(pos (realEnv FC FS) (paramsChanged (realEnv FC FS) p) p.length).1,
         (pos (realEnv FC FS) (paramsChanged (realEnv FC FS) p) p.length).2,
         Real.pi + (p.angle + p.length * (p.curvature + 1/2 * p.length * p.dcurvature)),
         p.length, -(p.curvature + p.length * p.dcurvature), p.dcurvature⟩ : Params ℝ) = cloASneg (realEnv FC FS) p + Real.pi := by
    unfold cloASneg cloT1
    rw [escale]
    dsimp only
    rw [show (realEnv FC FS).pi = Real.pi from rfl]
    linear_combination (p.length * (p.curvature + 1/2 * p.length * p.dcurvature)) * hs2
  have hq := pos_clo_closed_of_neg FC FS
      (⟨(pos (realEnv FC FS) (paramsChanged (realEnv FC FS) p) p.length).1,
         (pos (realEnv FC FS) (paramsChanged (realEnv FC FS) p) p.length).2,
         Real.pi + (p.angle + p.length * (p.curvature + 1/2 * p.length * p.dcurvature)),
         p.length, -(p.curvature + p.length * p.dcurvature), p.dcurvature⟩ : Params ℝ) hdk hneg p.length
  rw [escale, etdiff, et1, eAS, Real.cos_add_pi, Real.sin_add_pi,
    show -(cloT1 (realEnv FC FS) p + p.length * cloTdiff (realEnv FC FS) p) +
        p.length * cloTdiff (realEnv FC FS) p = -cloT1 (realEnv FC FS) p from by ring,
    hFC, hFS, hFC, hFS] at hq
  have hret : pos (realEnv FC FS) (paramsChanged (realEnv FC FS)
      (⟨(pos (realEnv FC FS) (paramsChanged (realEnv FC FS) p) p.length).1,
         (pos (realEnv FC FS) (paramsChanged (realEnv FC FS) p) p.length).2,
         Real.pi + (p.angle + p.length * (p.curvature + 1/2 * p.length * p.dcurvature)),
         p.length, -(p.curvature + p.length * p.dcurvature), p.dcurvature⟩ : Params ℝ)) p.length = (p.x, p.y) := by
    rw [hq]
    dsimp only
    rw [hposL]
    dsimp only
    simp only [Prod.mk.injEq]
    constructor <;> ring
  have h2 : flip (realEnv FC FS) (paramsChanged (realEnv FC FS)
      (⟨(pos (realEnv FC FS) (paramsChanged (realEnv FC FS) p) p.length).1,
         (pos (realEnv FC FS) (paramsChanged (realEnv FC FS) p) p.length).2,
         Real.pi + (p.angle + p.length * (p.curvature + 1/2 * p.length * p.dcurvature)),
         p.length, -(p.curvature + p.length * p.dcurvature), p.dcurvature⟩ : Params ℝ)) =
      paramsChanged (realEnv FC FS)
        ⟨p.x, p.y, p.angle + 2 * Real.pi, p.length, p.curvature, p.dcurvature⟩ := by
    rw [flip_eq]
    refine congrArg (paramsChanged (realEnv FC FS)) ?_
    dsimp only
    rw [hret]
    simp only [realEnv, Params.mk.injEq, and_true, true_and]
    exact ⟨by ring, by ring⟩
  have eAS2 : cloASneg (realEnv FC FS)
      (⟨p.x, p.y, p.angle + 2 * Real.pi, p.length, p.curvature, p.dcurvature⟩ : Params ℝ)
      = cloASneg (realEnv FC FS) p + 2 * Real.pi := by
    unfold cloASneg cloT1 cloScale
    dsimp only
    rw [show (realEnv FC FS).pi = Real.pi from rfl]
    ring
  have esc2 : cloScale (realEnv FC FS)
      (⟨p.x, p.y, p.angle + 2 * Real.pi, p.length, p.curvature, p.dcurvature⟩ : Params ℝ)
      = cloScale (realEnv FC FS) p := rfl
  have et2 : cloT1 (realEnv FC FS)
      (⟨p.x, p.y, p.angle + 2 * Real.pi, p.length, p.curvature, p.dcurvature⟩ : Params ℝ)
      = cloT1 (realEnv FC FS) p := rfl
  have etd2 : cloTdiff (realEnv FC FS)
      (⟨p.x, p.y, p.angle + 2 * Real.pi, p.length, p.curvature, p.dcurvature⟩ : Params ℝ)
      = cloTdiff (realEnv FC FS) p := rfl
  rw [h1, h2, pos_clo_closed_of_neg FC FS
      (⟨p.x, p.y, p.angle + 2 * Real.pi, p.length, p.curvature, p.dcurvature⟩ : Params ℝ) hdk hneg s,
    pos_clo_closed_of_neg FC FS p hdk hneg s,
    eAS2, esc2, et2, etd2, Real.cos_add_two_pi, Real.sin_add_two_pi]

/-- Evaluating position at arc length 0 on a freshly rebuilt state returns
the stored start position (needs only `cos 0 = 1` and `sin 0 = 0`). -/
theorem pos_paramsChanged_zero (env : Env α) (hcos0 : env.cos 0 = 1)
    (hsin0 : env.sin 0 = 0) (p : Params α) :
    pos env (paramsChanged env p) 0 = (p.x, p.y) := by
  by_cases hdk : |p.dcurvature| < 1/10^12
  · by_cases hk : |p.curvature| < 1/10^6
    · rw [paramsChanged_flat env p hdk hk, pos_of_flat env _ rfl 0]
      simp [vadd, Mat2.mulVec]
    · rw [paramsChanged_arc env p hdk hk, pos_of_arc env _ rfl rfl 0]
      simp only [zero_mul, add_zero, hcos0, hsin0, vadd, Mat2.mulVec, Prod.mk.injEq]
      constructor <;> ring
  · obtain ⟨ha, hf, ht1, htd, hss⟩ := paramsChanged_clo env p hdk
    rw [pos_of_clo env _ hf ha 0]
    simp only [zero_mul, add_zero]
    rw [hss]
    simp only [vadd, vsub, Mat2.mulVec, Prod.mk.injEq]
    constructor <;> ring

/-- Counterexample to C6 as stated: the flat-regime closed form (a straight
line) is exact only for curvature exactly 0, but the flat flag admits any
curvature below 1e-6 in magnitude, and `flip` relocates the start point
using that inexact closed form.  For the segment with start (0,0), angle 0,
length π·10⁷/3, curvature 1/10⁷ and curvature slope 0 (flat regime), the
double flip moves the start point: at s = 0 the original position is (0,0)
while the double-flipped position has y coordinate (π·10⁷/3)·sin(π + π/3) =
−(π·10⁷/3)·(√3/2) ≠ 0. -/
theorem claim_C6_flip_involution_counterexample :
    ¬ (∀ (FC FS : ℝ → ℝ), (∀ t, FC (-t) = -FC t) → (∀ t, FS (-t) = -FS t) →
        ∀ p : Params ℝ, 0 ≤ p.length → ∀ s : ℝ, 0 ≤ s → s ≤ p.length →
          pos (realEnv FC FS) (flip (realEnv FC FS) (flip (realEnv FC FS)
              (paramsChanged (realEnv FC FS) p))) s =
            pos (realEnv FC FS) (paramsChanged (realEnv FC FS) p) s) := by
  intro hclaim
  have h := hclaim (fun _ => 0) (fun _ => 0) (fun t => by norm_num) (fun t => by norm_num)
      ⟨0, 0, 0, Real.pi * 10 ^ 7 / 3, 1/10^7, 0⟩ (by positivity) 0 le_rfl (by positivity)
  have h1 : flip (realEnv (fun _ => 0) (fun _ => 0))
      (paramsChanged (realEnv (fun _ => 0) (fun _ => 0))
        ⟨0, 0, 0, Real.pi * 10 ^ 7 / 3, 1/10^7, 0⟩) =
      paramsChanged (realEnv (fun _ => 0) (fun _ => 0))
        ⟨Real.pi * 10 ^ 7 / 3, 0, Real.pi + Real.pi / 3, Real.pi * 10 ^ 7 / 3, -(1/10^7), 0⟩ := by
    rw [flip_eq]
    refine congrArg (paramsChanged (realEnv (fun _ => 0) (fun _ => 0))) ?_
    dsimp only
    rw [pos_flat_closed (realEnv (fun _ => 0) (fun _ => 0))
      ⟨0, 0, 0, Real.pi * 10 ^ 7 / 3, 1/10^7, 0⟩ (by norm_num)
      (by rw [abs_lt]; constructor <;> norm_num) (Real.pi * 10 ^ 7 / 3)]
    simp only [realEnv, Params.mk.injEq, and_true, true_and]
    exact ⟨by rw [Real.cos_zero]; ring, by rw [Real.sin_zero]; ring, by ring, by ring⟩
  rw [h1, flip_eq] at h
  dsimp only at h
  rw [pos_flat_closed (realEnv (fun _ => 0) (fun _ => 0))
    ⟨Real.pi * 10 ^ 7 / 3, 0, Real.pi + Real.pi / 3, Real.pi * 10 ^ 7 / 3, -(1/10^7), 0⟩
    (by norm_num) (by rw [abs_lt]; constructor <;> norm_num) (Real.pi * 10 ^ 7 / 3)] at h
  dsimp only at h
  have hc0 : (realEnv (fun _ : ℝ => (0:ℝ)) (fun _ : ℝ => (0:ℝ))).cos 0 = 1 := Real.cos_zero
  have hsn0 : (realEnv (fun _ : ℝ => (0:ℝ)) (fun _ : ℝ => (0:ℝ))).sin 0 = 0 := Real.sin_zero
  rw [pos_paramsChanged_zero _ hc0 hsn0, pos_paramsChanged_zero _ hc0 hsn0] at h
  have h2 := congrArg Prod.snd h
  dsimp only at h2
  rw [show (realEnv (fun _ : ℝ => (0:ℝ)) (fun _ : ℝ => (0:ℝ))).sin = Real.sin from rfl,
    sinPiAdd, Real.sin_pi_div_three] at h2
  have hpi := Real.pi_pos
  have h3 : 0 < Real.sqrt 3 := Real.sqrt_pos.mpr (by norm_num)
  nlinarith [h2, mul_pos hpi h3]

/-- C6 amended: double flip reproduces the position function exactly
whenever the active regime closed form is exact: always in the general
clothoid regime (given the odd symmetry of the true Fresnel integrals), and
in the degenerate regimes provided the below-threshold parameters are
exactly degenerate (curvature slope exactly 0 in the arc regime, curvature
also exactly 0 in the flat sub-regime).  For below-threshold but nonzero
degenerate parameters the two position functions agree only approximately,
not exactly. -/
theorem claim_C6_flip_involution_amended (FC FS : ℝ → ℝ)
    (hFC : ∀ t, FC (-t) = -FC t) (hFS : ∀ t, FS (-t) = -FS t)
    (p : Params ℝ) (hL : 0 ≤ p.length)
    (hA : |p.dcurvature| < 1/10^12 → p.dcurvature = 0)
    (hB : |p.dcurvature| < 1/10^12 → |p.curvature| < 1/10^6 → p.curvature = 0)
    (s : ℝ) (hs0 : 0 ≤ s) (hsL : s ≤ p.length) :
    pos (realEnv FC FS) (flip (realEnv FC FS) (flip (realEnv FC FS)
        (paramsChanged (realEnv FC FS) p))) s =
      pos (realEnv FC FS) (paramsChanged (realEnv FC FS) p) s := by
  by_cases hdk : |p.dcurvature| < 1/10^12
  · by_cases hk : |p.curvature| < 1/10^6
    · exact flip_flip_flat FC FS p (hA hdk) (hB hdk hk) s
    · exact flip_flip_arc FC FS p (hA hdk) hk s
  · have hne : p.dcurvature ≠ 0 := by
      intro h0
      exact hdk (by rw [h0]; norm_num)
    rcases hne.lt_or_lt with hneg | hpos
    · exact flip_flip_clo_of_neg FC FS hFC hFS p hdk hneg s
    · exact flip_flip_clo_of_pos FC FS hFC hFS p hdk hpos s

/-- Witness for the amended C6 at a concrete clothoid segment (odd Fresnel
stand-ins `id`, curvature slope 1). -/
theorem claim_C6_flip_involution_amended_witness :
    (∀ t : ℝ, (fun u : ℝ => u) (-t) = -((fun u : ℝ => u) t)) ∧
    (0 : ℝ) ≤ 1 ∧
    pos (realEnv (fun u => u) (fun u => u))
        (flip (realEnv (fun u => u) (fun u => u)) (flip (realEnv (fun u => u) (fun u => u))
          (paramsChanged (realEnv (fun u => u) (fun u => u)) ⟨0, 0, 0, 1, 0, 1⟩))) 1 =
      pos (realEnv (fun u => u) (fun u => u))
        (paramsChanged (realEnv (fun u => u) (fun u => u)) ⟨0, 0, 0, 1, 0, 1⟩) 1 :=
  ⟨fun t => rfl, by norm_num,
   claim_C6_flip_involution_amended (fun u => u) (fun u => u) (fun t => rfl) (fun t => rfl)
     ⟨0, 0, 0, 1, 0, 1⟩ (by norm_num) (fun h => absurd h (by norm_num))
     (fun h _ => absurd h (by norm_num)) 1 (by norm_num) (by norm_num)⟩

/-- C2: in every regime the tangent is `(cos θ, sin θ)` with
`θ = start angle + s·(curvature + 0.5·s·curvature-slope)`, the heading angle
is that same `θ`, and the tangent, heading angle, second derivative and
scalar curvature do not depend on the regime flags; position, by contrast,
does consult the flags. -/
theorem claim_C2_tangent_closed_form (env : Env α) (C : Clothoid α) (s : α) :
    der env C s =
      (env.cos (C.params.angle + s * (C.params.curvature + 1/2 * s * C.params.dcurvature)),
       env.sin (C.params.angle + s * (C.params.curvature + 1/2 * s * C.params.dcurvature))) ∧
    angle C s = C.params.angle + s * (C.params.curvature + 1/2 * s * C.params.dcurvature) ∧
    der env C s = (env.cos (angle C s), env.sin (angle C s)) ∧
    der2 env C s = smul2 (curvature C s) (-(env.sin (angle C s)), env.cos (angle C s)) ∧
    (∀ b bf : Bool,
      der env (setFlags C b bf) s = der env C s ∧
      der2 env (setFlags C b bf) s = der2 env C s ∧
      angle (setFlags C b bf) s = angle C s ∧
      curvature (setFlags C b bf) s = curvature C s) ∧
    (∃ (e : Env ℚ) (D : Clothoid ℚ) (u : ℚ) (b bf : Bool),
      pos e (setFlags D b bf) u ≠ pos e D u) := by
  refine ⟨rfl, rfl, rfl, rfl, fun b bf => ⟨rfl, rfl, rfl, rfl⟩, ?_⟩
  refine ⟨qEnv, ⟨⟨0, 0, 0, 0, 0, 0⟩, true, true, 0, 1, ⟨1, 0, 0, 1⟩, (0, 0)⟩,
    5, true, false, ?_⟩
  simp [pos, setFlags, vadd, Mat2.mulVec, qEnv, Prod.ext_iff]

/-- C4: `derivativeAt` always returns the start-X row `(1, 0)`, the start-Y
row `(0, 1)`, the start-angle row `(-Δy, Δx)` with
`Δ = position(s) - start position`, and a length row that is identically
zero, in every regime. -/
theorem claim_C4_jacobian_rows (env : Env α) (C : Clothoid α) (s : α) :
    (derivativeAt env C s).dX = (1, 0) ∧
    (derivativeAt env C s).dY = (0, 1) ∧
    (derivativeAt env C s).dAngle =
      (-(vsub (pos env C s) (C.params.x, C.params.y)).2,
        (vsub (pos env C s) (C.params.x, C.params.y)).1) ∧
    (derivativeAt env C s).dLength = (0, 0) := by
  cases hf : C.flat <;> cases ha : C.arc <;> simp [derivativeAt, hf, ha]

/-- C5: `trim(sFrom, sTo)` replaces the parameter vector with start position
`position(sFrom)`, start angle `headingAngle(sFrom)` computed from the
original curvature, start curvature `scalarCurvature(sFrom)`, length
`sTo - sFrom` and an unchanged curvature slope, then fully rebuilds the
derived state; there is no constraint on `sFrom`, `sTo` (the statement is
quantified over all of them, including invalid ranges). -/
theorem claim_C5_trim (env : Env α) (C : Clothoid α) (sFrom sTo : α) :
    (trim env C sFrom sTo).params =
      { x := (pos env C sFrom).1, y := (pos env C sFrom).2,
        angle := C.params.angle + sFrom * (C.params.curvature + 1/2 * sFrom * C.params.dcurvature),
        length := sTo - sFrom,
        curvature := C.params.curvature + sFrom * C.params.dcurvature,
        dcurvature := C.params.dcurvature } ∧
    trim env C sFrom sTo = paramsChanged env (trim env C sFrom sTo).params := by
  constructor
  · show (paramsChanged env _).params = _
    rw [params_paramsChanged]
    rfl
  · show paramsChanged env _ = paramsChanged env (paramsChanged env _).params
    rw [params_paramsChanged]

/-- C8: `isValid` is false exactly when the stored length is negative; it is
true at length 0, and it depends on no entry of the parameter vector other
than the length. -/
theorem claim_C8_isValid (C : Clothoid α) :
    (isValid C = false ↔ C.params.length < 0) ∧
    (C.params.length = 0 → isValid C = true) ∧
    (∀ D : Clothoid α, C.params.length = D.params.length → isValid C = isValid D) := by
  refine ⟨?_, ?_, ?_⟩
  · by_cases h : C.params.length < 0 <;> simp [isValid, h]
  · intro h
    simp [isValid, h]
  · intro D h
    simp [isValid, h]

/-- Witness for C8 at concrete segments: length 0 is valid, and two segments
sharing length 5 but nothing else get the same verdict. -/
theorem claim_C8_isValid_witness :
    isValid (⟨⟨0, 0, 0, 0, 0, 0⟩, true, true, 0, 1, ⟨1, 0, 0, 1⟩, (0, 0)⟩ : Clothoid ℚ) = true ∧
    isValid (⟨⟨0, 0, 0, 5, 0, 0⟩, true, true, 0, 1, ⟨1, 0, 0, 1⟩, (0, 0)⟩ : Clothoid ℚ) =
      isValid (⟨⟨9, 9, 9, 5, 9, 9⟩, false, false, 3, 4, ⟨1, 2, 3, 4⟩, (7, 8)⟩ : Clothoid ℚ) :=
  ⟨(claim_C8_isValid _).2.1 rfl, (claim_C8_isValid _).2.2 _ rfl⟩

/-- C9: constructing with length 0 computes the curvature slope as
`(endCurvature - curvature) / 0` — the divisor is the zero length and there
is no guard (in the field idealization this division yields the junk value
0; in IEEE doubles it yields an infinity or NaN) — and `isValid` on the
resulting segment still returns true. -/
theorem claim_C9_constructor_division_by_zero [FloorRing α] (env : Env α)
    (sx sy a k0 k1 : α) :
    (mkClothoid env sx sy a 0 k0 k1).params.dcurvature = (k1 - k0) / 0 ∧
    (mkClothoid env sx sy a 0 k0 k1).params.length = 0 ∧
    isValid (mkClothoid env sx sy a 0 k0 k1) = true := by
  refine ⟨?_, ?_, ?_⟩
  · show (paramsChanged env _).params.dcurvature = _
    rw [params_paramsChanged]
  · show (paramsChanged env _).params.length = _
    rw [params_paramsChanged]
  · have h : (mkClothoid env sx sy a 0 k0 k1).params.length = 0 := by
      show (paramsChanged env _).params.length = _
      rw [params_paramsChanged]
    simp [isValid, h]

/-- C10: the projection stub returns the same placeholder value, 0, for every
input point and every segment state. -/
theorem claim_C10_project_constant (C D : Clothoid α) (p q : α × α) :
    project C p = project D q ∧ project C p = 0 :=
  ⟨rfl, rfl⟩

end Cornu
